import Mathlib

/-!
Shallow embedding of the `Dataset` model of `wms/models/datasets/base.py`
(sciwms model layer).  Pure algorithmic pieces of the Python code are
translated to executable Lean definitions; theorems below check the
spec claims against them.
-/

namespace SciWMS

/-! ### Python stdlib `bisect.bisect_right`

CPython implementation (pure-Python reference in `Lib/bisect.py`):

    lo = 0; hi = len(a)
    while lo < hi:
        mid = (lo + hi) // 2
        if x < a[mid]: hi = mid
        else: lo = mid + 1
    return lo
-/

/-- The loop of CPython `bisect.bisect_right`; out-of-range reads default
to 0 but never happen while `hi ≤ a.length`. -/
def bisect_right_loop (a : List Int) (x : Int) (lo hi : Nat) : Nat :=
  if h : lo < hi then
    let mid := (lo + hi) / 2
    if x < a.getD mid 0 then
      bisect_right_loop a x lo mid
    else
      bisect_right_loop a x (mid + 1) hi
  else
    lo
termination_by hi - lo
decreasing_by
  all_goals simp_wf
  all_goals omega

/-- `bisect.bisect_right(a, x)` with the default `lo=0, hi=len(a)`. -/
def bisect_right (a : List Int) (x : Int) : Nat :=
  bisect_right_loop a x 0 a.length

/-- `Dataset.nearest_time`, after the time variable has been resolved and
the query converted: `num_date` stands for `round(nc4.date2num(time,
units, calendar))` and `times` for `time_var[:]`.  The `try/except
IndexError` around `times[time_index]` is modelled with `List.get?`;
`none` models an uncaught `IndexError` (only possible on an empty
array, where `times[-1]` also fails). -/
def nearest_time (times : List Int) (num_date : Int) : Option (Nat × Int) :=
  let time_index := bisect_right times num_date
  let time_index :=
    match times.get? time_index with
    | some _ => time_index
    | none => time_index - 1
  match times.get? time_index with
  | some v => some (time_index, v)
  | none => none

/-! ### Cache file names (`safe_filename`, `topology_file`) -/

/-- Python `str.rstrip()` with no argument: remove trailing whitespace. -/
def py_rstrip (s : String) : String :=
  String.mk (s.data.reverse.dropWhile Char.isWhitespace).reverse

/-- `Dataset.safe_filename`:
`"".join(c for c in self.name if c.isalnum()).rstrip()` (ASCII model of
`str.isalnum`). -/
def safe_filename (name : String) : String :=
  py_rstrip (String.mk (name.data.filter Char.isAlphanum))

/-- POSIX `os.path.join(a, b)` for two components: `b` wins when absolute,
otherwise a `/` separator is inserted unless `a` is empty or already ends
with `/`. -/
def os_path_join (a b : String) : String :=
  if b.data.head? = some '/' then b
  else if a.data = [] ∨ a.data.getLast? = some '/' then a ++ b
  else a ++ "/" ++ b

/-- `Dataset.topology_file`:
`os.path.join(settings.TOPOLOGY_PATH, '{}.nc'.format(self.safe_filename))`. -/
def topology_file (topology_path name : String) : String :=
  os_path_join topology_path (safe_filename name ++ ".nc")

/-! ### Cache lifecycle (`has_cache`, `clear_cache`, `update_cache`)

The contents of the `TOPOLOGY_PATH` directory are modelled as the list of
file names it holds. -/

/-- `Dataset.has_cache`: `os.path.exists(self.topology_file)` over the
directory model (the topology file exists iff its name is listed). -/
def has_cache (dir : List String) (name : String) : Bool :=
  dir.contains (safe_filename name ++ ".nc")

/-- Matching of the glob pattern `p + '*'` against a file name, for a
literal `p` without glob metacharacters: `p` must be a prefix of the
name, and glob's hidden-file rule applies — the wildcard never matches
a name starting with `.` unless the pattern itself starts with a
literal `.`. -/
def glob_star_match (p f : String) : Bool :=
  (if f.data.head? = some '.' then p.data.head? = some '.' else true) &&
    p.data.isPrefixOf f.data

/-- `Dataset.clear_cache`: removes every file matched by
`glob.glob(os.path.join(settings.TOPOLOGY_PATH, self.safe_filename + '*'))`.
`safe_filename` is purely alphanumeric, so it contains no glob
metacharacter and the pattern matches the names having it as a prefix,
subject to glob's hidden-file rule. -/
def clear_cache (dir : List String) (name : String) : List String :=
  dir.filter (fun f => !glob_star_match (safe_filename name) f)

/-- State of the on-disk topology cache for one dataset: whether the file
exists and a generation number distinguishing rewrites of it. -/
structure CacheState where
  present : Bool
  version : Nat
deriving DecidableEq

/-- Modelled from the spec: `Dataset.update_cache` is abstract in
`base.py` (it raises `NotImplementedError`; the implementations live in
subclasses outside this repository).  The spec calls the behaviour
"lazy, force-able on-disk topology cache creation": the topology file is
written when absent, and rewritten when `force` is set.  `fresh` is the
generation the (re)created file gets. -/
def update_cache (force : Bool) (fresh : Nat) (s : CacheState) : CacheState :=
  if force || !s.present then ⟨true, fresh⟩ else s

/-! ### Opening the netCDF resource -/

/-- `Dataset.netcdf4_dataset`: the `EnhancedDataset` and
`EnhancedMFDataset` constructor calls are modelled by oracles returning
`none` exactly when the Python call raises (the bare `except:` catches
every exception).  `p` models `self.path()`; the fallback also passes
`aggdim='time'`. -/
def netcdf4_dataset {α : Type} (openDS : String → Option α)
    (openMF : String → String → Option α) (p : String) : Option α :=
  match openDS p with
  | some ds => some ds
  | none =>
    match openMF p "time" with
    | some ds => some ds
    | none => none

/-! ### Layer introspection -/

/-- A netCDF variable as far as `analyze_virtual_layers` looks at it:
its name and its optional `standard_name` attribute. -/
structure NcVar where
  var_name : String
  standard_name : Option String
deriving DecidableEq

/-- `nc.get_variables_by_attributes(standard_name=lambda v: v in names)`:
netCDF4 hands the lambda `getattr(var, 'standard_name', None)`, and
`None in names` is false, so exactly the variables whose `standard_name`
is one of `names` match. -/
def get_vars_by_std (vars : List NcVar) (names : List String) : List NcVar :=
  vars.filter fun v =>
    match v.standard_name with
    | some s => names.contains s
    | none => false

/-- The record `VirtualLayer.make_vector_layer(us, vs, name, style, id)`
is called with (the dataset id is dropped, being the same for all five
calls). -/
structure VectorLayerSpec where
  us : List NcVar
  vs : List NcVar
  vl_name : String
  style : String
deriving DecidableEq

/-- `Dataset.analyze_virtual_layers`: `nc = none` models a dataset that
could not be opened; otherwise the five `make_vector_layer` calls are
listed in source order with their literal name tables. -/
def analyze_virtual_layers (nc : Option (List NcVar)) : List VectorLayerSpec :=
  match nc with
  | none => []
  | some vars =>
    [ ⟨get_vars_by_std vars
          ["eastward_sea_water_velocity", "eastward_sea_water_velocity_assuming_no_tide"],
       get_vars_by_std vars
          ["northward_sea_water_velocity", "northward_sea_water_velocity_assuming_no_tide"],
       "sea_water_velocity", "vectors"⟩,
      ⟨get_vars_by_std vars ["x_sea_water_velocity", "grid_eastward_sea_water_velocity"],
       get_vars_by_std vars ["y_sea_water_velocity", "grid_northward_sea_water_velocity"],
       "grid_sea_water_velocity", "vectors"⟩,
      ⟨get_vars_by_std vars ["eastward_wind"],
       get_vars_by_std vars ["northward_wind"],
       "winds", "barbs"⟩,
      ⟨get_vars_by_std vars ["x_wind", "grid_eastward_wind"],
       get_vars_by_std vars ["y_wind", "grid_northward_wind"],
       "grid_winds", "barbs"⟩,
      ⟨get_vars_by_std vars ["eastward_sea_ice_velocity"],
       get_vars_by_std vars ["northward_sea_ice_velocity"],
       "sea_ice_velocity", "vectors"⟩ ]

/-- The u-component `standard_name` table of `analyze_virtual_layers`,
keyed by virtual-layer name. -/
def u_names_for : String → List String
  | "sea_water_velocity" =>
      ["eastward_sea_water_velocity", "eastward_sea_water_velocity_assuming_no_tide"]
  | "grid_sea_water_velocity" => ["x_sea_water_velocity", "grid_eastward_sea_water_velocity"]
  | "winds" => ["eastward_wind"]
  | "grid_winds" => ["x_wind", "grid_eastward_wind"]
  | "sea_ice_velocity" => ["eastward_sea_ice_velocity"]
  | _ => []

/-- The v-component `standard_name` table of `analyze_virtual_layers`,
keyed by virtual-layer name. -/
def v_names_for : String → List String
  | "sea_water_velocity" =>
      ["northward_sea_water_velocity", "northward_sea_water_velocity_assuming_no_tide"]
  | "grid_sea_water_velocity" => ["y_sea_water_velocity", "grid_northward_sea_water_velocity"]
  | "winds" => ["northward_wind"]
  | "grid_winds" => ["y_wind", "grid_northward_wind"]
  | "sea_ice_velocity" => ["northward_sea_ice_velocity"]
  | _ => []

/-! ### Bounds helpers -/

/-- `Dataset.time_bounds`: `times[0]` raises `IndexError` exactly on an
empty sequence, giving `(None, None)`; otherwise `times[-1]` is the last
entry. -/
def time_bounds (times : List Int) : Option Int × Option Int :=
  match times with
  | [] => (none, none)
  | t :: ts => (some t, some (ts.getLastD t))

/-- `Dataset.depth_bounds`: same shape as `time_bounds` over
`self.depths(layer)`. -/
def depth_bounds (depths : List Int) : Option Int × Option Int :=
  match depths with
  | [] => (none, none)
  | d :: ds => (some d, some (ds.getLastD d))

/-- The `valid_range` / `valid_min` / `valid_max` attributes of one
netCDF variable, as `Dataset.process_layers` reads them (`none` models a
missing attribute). -/
structure NcVarRange where
  valid_range : Option (List Int)
  valid_min : Option Int
  valid_max : Option Int
deriving DecidableEq

/-- The default-bound assignments of `Dataset.process_layers` for one
variable, starting from the layer's current `default_min`/`default_max`.
On an empty `valid_range` array, `valid_range[0]` raises an uncaught
`IndexError`, modelled by the outer `none`; otherwise `valid_range[0]`
and `valid_range[-1]` are its first and last entries, then `valid_min`
and `valid_max` overwrite when present. -/
def process_layer_bounds (v : NcVarRange) (dmin dmax : Option Int) :
    Option (Option Int × Option Int) :=
  match
    (match v.valid_range with
     | some [] => none
     | some (a :: rest) => some (some a, some (rest.getLastD a))
     | none => some (dmin, dmax)) with
  | none => none
  | some p =>
    let q :=
      match v.valid_min with
      | some m => (some m, p.2)
      | none => p
    some
      (match v.valid_max with
       | some m => (q.1, some m)
       | none => q)

/-! ### Lemmas about the bisection loop -/

theorem bisect_right_loop_le (a : List Int) (x : Int) :
    ∀ lo hi, lo ≤ hi → lo ≤ bisect_right_loop a x lo hi ∧ bisect_right_loop a x lo hi ≤ hi := by
  intro lo hi
  induction lo, hi using bisect_right_loop.induct a x with
  | case1 lo hi h mid hlt ih =>
    intro _
    rw [bisect_right_loop]
    simp only [h, dite_true, mid, hlt, if_true] at ih ⊢
    have := ih (by omega)
    omega
  | case2 lo hi h mid hlt ih =>
    intro _
    rw [bisect_right_loop]
    simp only [h, dite_true, mid, hlt, if_false] at ih ⊢
    have := ih (by omega)
    omega
  | case3 lo hi h =>
    intro hle
    rw [bisect_right_loop]
    simp only [h, dite_false]
    omega

theorem bisect_right_le_length (a : List Int) (x : Int) :
    bisect_right a x ≤ a.length :=
  (bisect_right_loop_le a x 0 a.length (Nat.zero_le _)).2

/-- Helper: on a non-empty array `nearest_time` returns exactly the
bisection index clamped to the last position, together with the entry
there. -/
theorem nearest_time_eq (times : List Int) (d : Int) (h : times ≠ []) :
    nearest_time times d =
      some (if bisect_right times d < times.length then bisect_right times d
            else times.length - 1,
            times.getD (if bisect_right times d < times.length then bisect_right times d
                        else times.length - 1) 0) := by
  have hlen : 0 < times.length := List.length_pos.mpr h
  have hle := bisect_right_le_length times d
  unfold nearest_time
  by_cases hlt : bisect_right times d < times.length
  · have hget : times.get? (bisect_right times d) =
        some (times.getD (bisect_right times d) 0) := by
      rw [List.getD_eq_getElem _ _ hlt]
      exact List.get?_eq_get hlt
    simp only [hget, hlt, if_true]
  · have heq : bisect_right times d = times.length := by omega
    have hlt2 : times.length - 1 < times.length := by omega
    have hnone : times.get? times.length = none := List.get?_len_le (le_refl _)
    have hget : times.get? (times.length - 1) =
        some (times.getD (times.length - 1) 0) := by
      rw [List.getD_eq_getElem _ _ hlt2]
      exact List.get?_eq_get hlt2
    simp only [heq, hnone, hget, lt_irrefl, if_false]

/-! ### Character-level helpers -/

theorem ws_not_alnum (c : Char) (h : c.isWhitespace = true) : c.isAlphanum = false := by
  simp only [Char.isWhitespace, Bool.or_eq_true, decide_eq_true_eq] at h
  rcases h with ((h | h) | h) | h <;> subst h <;> decide

theorem alnum_ne_slash (c : Char) (h : c.isAlphanum = true) : c ≠ '/' := by
  intro he
  subst he
  exact absurd h (by decide)

theorem alnum_ne_dot (c : Char) (h : c.isAlphanum = true) : c ≠ '.' := by
  intro he
  subst he
  exact absurd h (by decide)

/-- When the literal part of the pattern starts with a character other
than `.`, glob's hidden-file rule never fires on a matching name and
the pattern `p + '*'` matches exactly the names with prefix `p`. -/
theorem glob_star_cons (c : Char) (tl : List Char) (hc : c ≠ '.') (p f : String)
    (hp : p.data = c :: tl) :
    glob_star_match p f = p.data.isPrefixOf f.data := by
  unfold glob_star_match
  by_cases hf : f.data.head? = some '.'
  · rw [if_pos hf]
    obtain ⟨ftl, hftl⟩ : ∃ tlf, f.data = '.' :: tlf := by
      cases hd : f.data with
      | nil =>
        rw [hd] at hf
        simp at hf
      | cons x xs =>
        refine ⟨xs, ?_⟩
        rw [hd, List.head?_cons, Option.some.injEq] at hf
        rw [hf]
    rw [hp, hftl]
    simp [List.isPrefixOf, hc]
  · rw [if_neg hf]
    simp

/-- Stripping trailing whitespace from a string of alphanumeric
characters changes nothing. -/
theorem rstrip_noop_of_alnum (l : List Char) :
    py_rstrip (String.mk (l.filter Char.isAlphanum)) = String.mk (l.filter Char.isAlphanum) := by
  unfold py_rstrip
  congr 1
  show ((l.filter Char.isAlphanum).reverse.dropWhile Char.isWhitespace).reverse =
    l.filter Char.isAlphanum
  cases hrev : (l.filter Char.isAlphanum).reverse with
  | nil =>
    have hnil : l.filter Char.isAlphanum = [] := by
      simpa using congrArg List.reverse hrev
    simp [hrev, hnil]
  | cons c t =>
    have hc : c ∈ l.filter Char.isAlphanum := by
      rw [← List.mem_reverse, hrev]
      exact List.mem_cons_self _ _
    have halnum := (List.mem_filter.mp hc).2
    have hws : c.isWhitespace = false := by
      cases hxx : c.isWhitespace with
      | false => rfl
      | true => rw [ws_not_alnum c hxx] at halnum; cases halnum
    rw [List.dropWhile_cons]
    simp only [hws, Bool.false_eq_true, if_false]
    rw [← hrev, List.reverse_reverse]

/-! ### Claim theorems -/

/-- C1: the claim states that `nearest_time` returns the entry of the
time array closest to the query, as the function docstring promises.
The code instead returns the `bisect_right` insertion point: at
`times = [0, 10]` with rounded query `1` it returns index 1 with value
10, although entry 0 at index 0 is strictly closer to the query. -/
theorem nearest_time_not_closest :
    nearest_time [0, 10] 1 = some (1, 10) ∧
    (0 : Int) ∈ ([0, 10] : List Int) ∧
    ((0 : Int) - 1).natAbs < ((10 : Int) - 1).natAbs := by
  refine ⟨?_, by decide, by decide⟩
  simp [nearest_time, bisect_right, bisect_right_loop]

/-- C2: on a non-empty time array, `nearest_time` returns the index
`bisect_right(times, num_date)` when that is strictly below the array
length and `length - 1` otherwise, paired with the array entry at that
index. -/
theorem nearest_time_bisect_clamp (times : List Int) (d : Int) (h : times ≠ []) :
    nearest_time times d =
      some (if bisect_right times d < times.length then bisect_right times d
            else times.length - 1,
            times.getD (if bisect_right times d < times.length then bisect_right times d
                        else times.length - 1) 0) :=
  nearest_time_eq times d h

theorem nearest_time_bisect_clamp_witness : nearest_time [5, 7] 100 = some (1, 7) := by
  have h := nearest_time_bisect_clamp [5, 7] 100 (by decide)
  simpa [bisect_right, bisect_right_loop] using h

/-- C3: on a non-empty time array the boundary correction keeps the
returned index within `[0, length - 1]`, so the final indexing of the
array always succeeds. -/
theorem nearest_time_index_in_bounds (times : List Int) (d : Int) (h : times ≠ []) :
    ∃ idx v, nearest_time times d = some (idx, v) ∧ idx < times.length ∧
      times.get? idx = some v := by
  have hlen : 0 < times.length := List.length_pos.mpr h
  have hle := bisect_right_le_length times d
  refine ⟨_, _, nearest_time_eq times d h, ?_, ?_⟩
  · by_cases hlt : bisect_right times d < times.length
    · simp [hlt]
    · simp [hlt]
      omega
  · by_cases hlt : bisect_right times d < times.length
    · have hx : (if bisect_right times d < times.length then bisect_right times d
          else times.length - 1) = bisect_right times d := if_pos hlt
      rw [hx, List.getD_eq_getElem _ _ hlt]
      exact List.get?_eq_get hlt
    · have hx : (if bisect_right times d < times.length then bisect_right times d
          else times.length - 1) = times.length - 1 := if_neg hlt
      have hlt2 : times.length - 1 < times.length := by omega
      rw [hx, List.getD_eq_getElem _ _ hlt2]
      exact List.get?_eq_get hlt2

theorem nearest_time_index_in_bounds_witness :
    ∃ idx v, nearest_time [3] 9 = some (idx, v) ∧ idx < ([3] : List Int).length ∧
      ([3] : List Int).get? idx = some v :=
  nearest_time_index_in_bounds [3] 9 (by decide)

/-- C4: `safe_filename` is the dataset name with every non-alphanumeric
character removed (the trailing `rstrip()` can strip nothing, since
alphanumeric characters are never whitespace), and `topology_file` is
`TOPOLOGY_PATH/<safe_filename>.nc` whenever `TOPOLOGY_PATH` is a
non-empty path without a trailing slash. -/
theorem safe_filename_topology_file_spec (tp name : String)
    (h1 : tp.data ≠ []) (h2 : tp.data.getLast? ≠ some '/') :
    safe_filename name = String.mk (name.data.filter Char.isAlphanum) ∧
    topology_file tp name = tp ++ "/" ++ (safe_filename name ++ ".nc") := by
  have hsafe : safe_filename name = String.mk (name.data.filter Char.isAlphanum) :=
    rstrip_noop_of_alnum name.data
  refine ⟨hsafe, ?_⟩
  have hb : ¬ (safe_filename name ++ ".nc").data.head? = some '/' := by
    rw [hsafe, String.data_append]
    show ¬ (name.data.filter Char.isAlphanum ++ ".nc".data).head? = some '/'
    cases hf : name.data.filter Char.isAlphanum with
    | nil => decide
    | cons c t =>
      have hc : c ∈ name.data.filter Char.isAlphanum := by
        rw [hf]
        exact List.mem_cons_self _ _
      have hne := alnum_ne_slash c (List.mem_filter.mp hc).2
      rw [List.cons_append]
      simp only [List.head?_cons, ne_eq, Option.some.injEq]
      exact hne
  unfold topology_file os_path_join
  rw [if_neg hb, if_neg (not_or.mpr ⟨h1, h2⟩)]

theorem safe_filename_topology_file_spec_witness :
    safe_filename "My Data!" = String.mk ("My Data!".data.filter Char.isAlphanum) ∧
    topology_file "/topo" "My Data!" = "/topo" ++ "/" ++ (safe_filename "My Data!" ++ ".nc") :=
  safe_filename_topology_file_spec "/topo" "My Data!" (by decide) (by decide)

/-- C5: the claim as stated fails on a dataset name without any
alphanumeric character: `safe_filename` is then empty, every file name
begins with it, yet the glob pattern `'*'` does not match the hidden
topology file `.nc`, which survives `clear_cache`, and `has_cache`
stays true. -/
theorem clear_cache_glob_counterexample :
    safe_filename "!!" = "" ∧
    ("" : String).data.isPrefixOf (".nc" : String).data = true ∧
    clear_cache [".nc"] "!!" = [".nc"] ∧
    has_cache (clear_cache [".nc"] "!!") "!!" = true := by
  decide

/-- C5 (amended): for every dataset whose `safe_filename` is non-empty,
`clear_cache` keeps exactly the files of the topology directory whose
names do not start with `safe_filename` (the hidden-file rule then
never diverges from the prefix test), and afterwards `has_cache` is
false because the topology file name itself starts with
`safe_filename`. -/
theorem clear_cache_glob_spec (name : String) (dir : List String)
    (h : safe_filename name ≠ "") :
    (∀ f, f ∈ clear_cache dir name ↔
      f ∈ dir ∧ (safe_filename name).data.isPrefixOf f.data = false) ∧
    has_cache (clear_cache dir name) name = false := by
  have hdata : (safe_filename name).data = name.data.filter Char.isAlphanum := by
    unfold safe_filename
    exact congrArg String.data (rstrip_noop_of_alnum name.data)
  cases hd : name.data.filter Char.isAlphanum with
  | nil =>
    exact absurd (String.ext (by rw [hdata, hd])) h
  | cons c tl =>
    have hc_mem : c ∈ name.data.filter Char.isAlphanum := by
      rw [hd]
      exact List.mem_cons_self _ _
    have hcdot := alnum_ne_dot c (List.mem_filter.mp hc_mem).2
    have hpd : (safe_filename name).data = c :: tl := by rw [hdata, hd]
    have hglob : ∀ f, glob_star_match (safe_filename name) f =
        (safe_filename name).data.isPrefixOf f.data :=
      fun f => glob_star_cons c tl hcdot _ f hpd
    constructor
    · intro f
      unfold clear_cache
      rw [List.mem_filter, hglob f]
      simp [Bool.not_eq_true']
    · unfold has_cache clear_cache
      rw [Bool.eq_false_iff]
      intro hcon
      have hmem := List.elem_iff.mp hcon
      have hfail := (List.mem_filter.mp hmem).2
      rw [hglob _] at hfail
      have hpre : (safe_filename name).data.isPrefixOf
          ((safe_filename name ++ ".nc").data) = true := by
        rw [String.data_append]
        exact List.isPrefixOf_iff_prefix.mpr (List.prefix_append _ _)
      rw [hpre] at hfail
      cases hfail

theorem clear_cache_glob_spec_witness :
    has_cache (clear_cache ["AB.nc", "AB.domain", "CD.nc"] "A B!") "A B!" = false :=
  (clear_cache_glob_spec "A B!" ["AB.nc", "AB.domain", "CD.nc"] (by decide)).2

/-- C6: cache creation is lazy and force-able: `update_cache` writes the
topology file when it is absent, and `update_cache` with `force` set
rewrites it even when it is present. -/
theorem update_cache_lazy_force (force : Bool) (fresh : Nat) (s : CacheState) :
    (s.present = false → update_cache force fresh s = ⟨true, fresh⟩) ∧
    update_cache true fresh s = ⟨true, fresh⟩ := by
  unfold update_cache
  constructor
  · intro h
    simp [h]
  · simp

theorem update_cache_lazy_force_witness :
    update_cache false 5 ⟨false, 0⟩ = ⟨true, 5⟩ :=
  (update_cache_lazy_force false 5 ⟨false, 0⟩).1 rfl

/-- C7: `netcdf4_dataset` is total over the exception-as-`Option` model:
it returns the `EnhancedDataset` opened from `path()` when that attempt
succeeds, otherwise the `EnhancedMFDataset` opened with `aggdim='time'`,
and `none` when both attempts fail. -/
theorem netcdf4_dataset_fallback {α : Type} (openDS : String → Option α)
    (openMF : String → String → Option α) (p : String) :
    (∀ d, openDS p = some d → netcdf4_dataset openDS openMF p = some d) ∧
    (openDS p = none → ∀ d, openMF p "time" = some d →
      netcdf4_dataset openDS openMF p = some d) ∧
    (openDS p = none → openMF p "time" = none →
      netcdf4_dataset openDS openMF p = none) := by
  unfold netcdf4_dataset
  refine ⟨?_, ?_, ?_⟩
  · intro d hd
    rw [hd]
  · intro h1 d hd
    rw [h1, hd]
  · intro h1 h2
    rw [h1, h2]

theorem netcdf4_dataset_fallback_witness :
    netcdf4_dataset (fun _ => (none : Option Nat)) (fun _ _ => some 7) "data.nc" = some 7 :=
  (netcdf4_dataset_fallback (fun _ => (none : Option Nat))
    (fun _ _ => some 7) "data.nc").2.1 rfl 7 rfl

/-- C8: with an opened dataset, `analyze_virtual_layers` creates exactly
five vector layers, in source order `sea_water_velocity` (vectors),
`grid_sea_water_velocity` (vectors), `winds` (barbs), `grid_winds`
(barbs), `sea_ice_velocity` (vectors); the u- and v-component variables
of each are exactly the dataset variables whose `standard_name` lies in
the corresponding name table.  With no opened dataset it creates none. -/
theorem analyze_virtual_layers_spec (vars : List NcVar) :
    analyze_virtual_layers none = [] ∧
    (analyze_virtual_layers (some vars)).map (fun l => (l.vl_name, l.style)) =
      [("sea_water_velocity", "vectors"), ("grid_sea_water_velocity", "vectors"),
       ("winds", "barbs"), ("grid_winds", "barbs"), ("sea_ice_velocity", "vectors")] ∧
    ∀ l ∈ analyze_virtual_layers (some vars), ∀ v : NcVar,
      (v ∈ l.us ↔ v ∈ vars ∧ ∃ s, v.standard_name = some s ∧ s ∈ u_names_for l.vl_name) ∧
      (v ∈ l.vs ↔ v ∈ vars ∧ ∃ s, v.standard_name = some s ∧ s ∈ v_names_for l.vl_name) := by
  have key : ∀ (v : NcVar) (names : List String), v ∈ get_vars_by_std vars names ↔
      v ∈ vars ∧ ∃ s, v.standard_name = some s ∧ s ∈ names := by
    intro v names
    unfold get_vars_by_std
    rw [List.mem_filter]
    cases hs : v.standard_name with
    | none => simp [hs]
    | some s => simp [hs, List.elem_iff]
  refine ⟨rfl, rfl, ?_⟩
  intro l hl v
  fin_cases hl <;> exact ⟨key v _, key v _⟩

theorem analyze_virtual_layers_spec_witness :
    (⟨"u_wind", some "eastward_wind"⟩ : NcVar) ∈
      (⟨[⟨"u_wind", some "eastward_wind"⟩], [], "winds", "barbs"⟩ : VectorLayerSpec).us :=
  ((analyze_virtual_layers_spec [⟨"u_wind", some "eastward_wind"⟩]).2.2
    ⟨[⟨"u_wind", some "eastward_wind"⟩], [], "winds", "barbs"⟩ (by decide)
    ⟨"u_wind", some "eastward_wind"⟩).1.mpr (by decide)

/-- C9: `time_bounds` returns the first and last entry of the time
sequence as min and max, `(None, None)` on an empty sequence instead of
raising; `depth_bounds` does the same over the depth sequence. -/
theorem bounds_first_last (ts : List Int) :
    time_bounds ts = (ts.head?, ts.getLast?) ∧ depth_bounds ts = (ts.head?, ts.getLast?) := by
  cases ts <;> simp [time_bounds, depth_bounds, List.getLast?_cons]

theorem bounds_first_last_witness :
    time_bounds [4, 8, 15] = (([4, 8, 15] : List Int).head?, ([4, 8, 15] : List Int).getLast?) ∧
    depth_bounds [4, 8, 15] = (([4, 8, 15] : List Int).head?, ([4, 8, 15] : List Int).getLast?) :=
  bounds_first_last [4, 8, 15]

/-- C10: in `process_layers`, a `valid_min` (resp. `valid_max`)
attribute overrides the `default_min` (resp. `default_max`) first taken
from the first and last entries of `valid_range`, for every variable
carrying both; `valid_range` must have entries, since `valid_range[0]`
raises an uncaught `IndexError` on an empty attribute array. -/
theorem valid_min_max_override (v : NcVarRange) (dmin dmax : Option Int)
    (r : List Int) (hr : v.valid_range = some r) (hne : r ≠ []) :
    (∀ m, v.valid_min = some m →
      ∃ q, process_layer_bounds v dmin dmax = some q ∧ q.1 = some m) ∧
    (∀ m, v.valid_max = some m →
      ∃ q, process_layer_bounds v dmin dmax = some q ∧ q.2 = some m) := by
  cases r with
  | nil => exact absurd rfl hne
  | cons a rest =>
    unfold process_layer_bounds
    constructor
    · intro m hm
      cases hmax : v.valid_max <;> simp [hr, hm, hmax]
    · intro m hm
      cases hmin : v.valid_min <;> simp [hr, hm, hmin]

theorem valid_min_max_override_witness :
    ∃ q, process_layer_bounds ⟨some [0, 100], some 5, some 50⟩ none none = some q ∧
      q.1 = some 5 :=
  (valid_min_max_override ⟨some [0, 100], some 5, some 50⟩ none none
    [0, 100] rfl (by decide)).1 5 rfl

end SciWMS
